import Mathlib

/-!
Shallow embedding of the production-dashboard core of this repository
(`App.tsx` and `types.ts`): the record data model, the month-key
derivation, the month filter, the available-months aggregation, the
upload batch handling and the settings-driven recomputation of the
processed records.  TypeScript `number` fields are embedded as `ℚ`,
TypeScript string enums as `String` constants, JavaScript arrays as
`List`, and the two external asynchronous adapters as explicit
parameters respectively explicit per-document outcomes.
-/

/-- The string value of `RoundingMode.VARIANT_A` in `types.ts`. -/
def RoundingMode.VARIANT_A : String := "Standard (Kaufmännisch)"

/-- The string value of `RoundingMode.VARIANT_B` in `types.ts`. -/
def RoundingMode.VARIANT_B : String := "Aufrunden (Always Up)"

/-- The material classification labels of the `material` field in `types.ts`. -/
inductive Material where
  | Cu
  | Tombak
  | Messing
  | Unklar
  deriving DecidableEq

/-- `ProductionRecord` from `types.ts`; the numeric computed fields are
embedded as `ℚ`. -/
structure ProductionRecord where
  id : String
  datum : String
  ofen : String
  temperatur : String
  legierung : String
  gewichtKg : String
  bemerkungen : String
  temp_n : ℚ
  alloy_n : ℚ
  weight_n : ℚ
  tonnes : ℚ
  tonnesRounded : ℚ
  material : Material
  tempBucket : String
  deriving DecidableEq

/-- `AppSettings` from `types.ts`.  The rounding mode is a string because
`RoundingMode` is a TypeScript string enum, so at runtime the field holds
an arbitrary string. -/
structure AppSettings where
  roundingMode : String
  tombakThreshold : ℚ
  tempBuckets : List ℚ
  tempTolerance : ℚ
  deriving DecidableEq

/-- The initial settings of `App.tsx` lines 15 to 20. -/
def initialSettings : AppSettings :=
  { roundingMode := RoundingMode.VARIANT_A
    tombakThreshold := 85
    tempBuckets := [570, 610, 650]
    tempTolerance := 5 }

/-- Helper for `splitOnDot`; `acc` holds the characters of the current
component in reverse. -/
def splitOnDotAux (acc : List Char) : List Char → List String
  | [] => [String.mk acc.reverse]
  | c :: cs =>
    if c = '.' then String.mk acc.reverse :: splitOnDotAux [] cs
    else splitOnDotAux (c :: acc) cs

/-- JavaScript `datum.split(".")` as used in `App.tsx` lines 45 and 59. -/
def splitOnDot (s : String) : List String := splitOnDotAux [] s.data

/-- JavaScript `s.padStart(2, "0")` as used in `App.tsx` lines 47 and 61:
left-pad with zeros to length two, unchanged when the string already has at
least two characters. -/
def padStart2 (s : String) : String :=
  String.mk (List.replicate (2 - s.length) '0' ++ s.data)

/-- The month key computed identically inside `availableMonths` (`App.tsx`
lines 45 to 49) and `filteredData` (lines 59 to 63): split the date on ".";
with exactly three components the key is `year ++ "-" ++ month`, where
`month` is the second component padded to two digits and `year` is the
third component prefixed with "20" when it has exactly two characters and
taken as-is otherwise; with any other component count there is no key. -/
def monthKeyOf (datum : String) : Option String :=
  match splitOnDot datum with
  | [_, m, y] => some ((if y.length = 2 then "20" ++ y else y) ++ "-" ++ padStart2 m)
  | _ => none

/-- The predicate of the `filter` callback in `filteredData` (`App.tsx`
lines 58 to 67): derive the month key of the record and test membership in
the selection, returning false when the date does not split into three
components. -/
def recordInSelection (selectedMonths : List String) (rec : ProductionRecord) : Bool :=
  match monthKeyOf rec.datum with
  | some key => selectedMonths.contains key
  | none => false

/-- `filteredData` of `App.tsx` lines 56 to 68: with no month selected the
whole processed list is returned; otherwise only the records whose month
key is contained in the selection, records without a month key dropping
out. -/
def filteredData (selectedMonths : List String) (allProcessed : List ProductionRecord) :
    List ProductionRecord :=
  if selectedMonths.length = 0 then allProcessed
  else allProcessed.filter (recordInSelection selectedMonths)

/-- The month keys of the processed records in order, as collected by the
`forEach` loop of `availableMonths` (`App.tsx` lines 42 to 51). -/
def monthKeys (allProcessed : List ProductionRecord) : List String :=
  allProcessed.filterMap (fun rec => monthKeyOf rec.datum)

/-- JavaScript `Set` insertion order: keep the first occurrence of every
string, dropping later duplicates. -/
def dedupKeepFirst (seen : List String) : List String → List String
  | [] => []
  | x :: xs =>
    if seen.contains x then dedupKeepFirst seen xs
    else x :: dedupKeepFirst (x :: seen) xs

/-- The string comparison applied by `Array.prototype.sort()` to the month
keys of `App.tsx` line 52. -/
def strLe (a b : String) : Bool := decide (a ≤ b)

/-- `availableMonths` of `App.tsx` lines 40 to 53: the month keys of the
entire processed list collected into a `Set`, turned into an array, sorted
ascending and reversed.  The function reads `allProcessedData`, never the
filtered list. -/
def availableMonths (allProcessed : List ProductionRecord) : List String :=
  ((dedupKeepFirst [] (monthKeys allProcessed)).mergeSort strLe).reverse

/-- The sequential extraction loop of `handleFileUpload` (`App.tsx` lines
85 to 90): each list entry is the outcome of `parseProductionDataWithAi`
for one document; the results are concatenated and the first throw aborts
the whole loop. -/
def extractBatch :
    List (Except String (List ProductionRecord)) → Except String (List ProductionRecord)
  | [] => Except.ok []
  | Except.error e :: _ => Except.error e
  | Except.ok recs :: rest =>
    match extractBatch rest with
    | Except.error e => Except.error e
    | Except.ok more => Except.ok (recs ++ more)

/-- `handleFileUpload` of `App.tsx` lines 82 to 103 acting on the
accumulated record store: when every document extracts, the whole batch is
appended to the store in the single `setUploadedRecords` call of line 92
and no error is reported; when any extraction throws, control jumps to the
`catch` block before `setUploadedRecords` runs, so the store stays as it
was and the error message is reported via `alert`. -/
def handleFileUpload (store : List ProductionRecord)
    (results : List (Except String (List ProductionRecord))) :
    List ProductionRecord × Option String :=
  match extractBatch results with
  | Except.ok batch => (store ++ batch, none)
  | Except.error e => (store, some e)

/-- A record with only `id` and `datum` set, the two fields the month and
filter logic read; all other fields take fixed dummy values. -/
def mkRecord (id datum : String) : ProductionRecord :=
  { id := id
    datum := datum
    ofen := ""
    temperatur := ""
    legierung := ""
    gewichtKg := ""
    bemerkungen := ""
    temp_n := 0
    alloy_n := 0
    weight_n := 0
    tonnes := 0
    tonnesRounded := 0
    material := Material.Unklar
    tempBucket := "" }

/-- The state of `App.tsx` the processed data depends on: `settings`,
`uploadedRecords`, and the memoised value of the `allProcessedData`
`useMemo` whose dependency list is `[settings, uploadedRecords]` (lines 33
to 37). -/
structure AppState where
  settings : AppSettings
  uploadedRecords : List ProductionRecord
  allProcessedData : List ProductionRecord
  deriving DecidableEq

/-- The two state changes that reach `settings` or `uploadedRecords`: the
`setSettings` handed to the sidebar and the append performed by a
successful upload (`App.tsx` line 92). -/
inductive AppEvent where
  | setSettings (s : AppSettings)
  | uploadBatch (recs : List ProductionRecord)

/-- Re-evaluation of the `allProcessedData` memo (`App.tsx` lines 33 to
37): `uploadedRecords.map(rec => processRawData([rec], settings)[0])`,
where `processOne rec settings` stands for `processRawData([rec],
settings)[0]`; the external `processRawData` of `utils/dataProcessors`
turns one raw record and the settings into one enriched record and is kept
as a parameter. -/
def recomputeProcessed (processOne : ProductionRecord → AppSettings → ProductionRecord)
    (st : AppState) : AppState :=
  { st with allProcessedData := st.uploadedRecords.map (fun rec => processOne rec st.settings) }

/-- One state transition of `App.tsx`: both events re-evaluate the memo
because `settings` and `uploadedRecords` are exactly its dependencies. -/
def stepApp (processOne : ProductionRecord → AppSettings → ProductionRecord)
    (st : AppState) : AppEvent → AppState
  | AppEvent.setSettings s => recomputeProcessed processOne { st with settings := s }
  | AppEvent.uploadBatch recs =>
    recomputeProcessed processOne { st with uploadedRecords := st.uploadedRecords ++ recs }

/-- The initial state of `App.tsx`: the default settings of lines 15 to 20,
no uploaded records and an (accordingly empty) processed list. -/
def initialAppState : AppState :=
  { settings := initialSettings
    uploadedRecords := []
    allProcessedData := [] }

/-- Running `App.tsx` from its initial state through a sequence of settings
changes and uploads. -/
def runApp (processOne : ProductionRecord → AppSettings → ProductionRecord)
    (events : List AppEvent) : AppState :=
  events.foldl (stepApp processOne) initialAppState

/-- The `fetchInsights` effect of `App.tsx` lines 70 to 80: it runs
whenever `filteredData` changes and overwrites `aiInsights` with
`getGeminiInsights(filteredData)` only when the filtered list is
non-empty; with an empty filtered list the previous `aiInsights` value is
kept. -/
def updateInsights (getGeminiInsights : List ProductionRecord → String)
    (filtered : List ProductionRecord) (aiInsights : String) : String :=
  if filtered.length > 0 then getGeminiInsights filtered else aiInsights

/-- A concrete stand-in for the opaque `getGeminiInsights` adapter, used by
the concrete instances below; it distinguishes an empty from a non-empty
record list. -/
def demoInsight (records : List ProductionRecord) : String :=
  if records.length = 0 then "keine Daten" else "Zusammenfassung"

/-- Modelled from the spec: the ascending-order check on `tempBuckets`
demanded of the settings boundary; the `Sidebar` component that owns the
settings controls is not part of the repository snapshot. -/
def bucketsAscending : List ℚ → Bool
  | [] => true
  | [_] => true
  | a :: b :: rest => decide (a < b) && bucketsAscending (b :: rest)

/-- Modelled from the spec: the settings boundary (the `Sidebar` component,
absent from the snapshot) accepts a settings object only when the rounding
mode is one of the two recognised modes, `tempBuckets` is ascending and
`tempTolerance` is non-negative. -/
def validSettings (s : AppSettings) : Bool :=
  (decide (s.roundingMode = RoundingMode.VARIANT_A) ||
      decide (s.roundingMode = RoundingMode.VARIANT_B)) &&
    bucketsAscending s.tempBuckets &&
    decide (0 ≤ s.tempTolerance)

/-- Modelled from the spec: a settings change passes the boundary only
after validation; a rejected configuration leaves the application state
untouched, so it never reaches the normaliser or classifier. -/
def applySettingsChange (processOne : ProductionRecord → AppSettings → ProductionRecord)
    (st : AppState) (s : AppSettings) : AppState :=
  if validSettings s then stepApp processOne st (AppEvent.setSettings s) else st

/-- An invalid configuration: a recognised rounding mode and ascending
buckets, but a negative tolerance. -/
def invalidDemoSettings : AppSettings :=
  { roundingMode := RoundingMode.VARIANT_A
    tombakThreshold := 85
    tempBuckets := [570, 610, 650]
    tempTolerance := -1 }

/-- C2: for every date string, splitting on "." into exactly three
components derives the month key `year-month`, with the month component the
second component left-padded with zeros to two digits, and the year the
third component prefixed with "20" when it has exactly two characters and
used as-is when it has four; when the component count is not exactly three,
no month key is derived. -/
theorem monthKey_spec (d : String) :
    (∀ p1 p2 p3, splitOnDot d = [p1, p2, p3] →
      (p3.length = 2 → monthKeyOf d = some (("20" ++ p3) ++ "-" ++ padStart2 p2)) ∧
      (p3.length = 4 → monthKeyOf d = some (p3 ++ "-" ++ padStart2 p2))) ∧
    ((splitOnDot d).length ≠ 3 → monthKeyOf d = none) := by
  constructor
  · intro p1 p2 p3 h
    constructor
    · intro h2
      simp [monthKeyOf, h, h2]
    · intro h4
      have hne : ¬ p3.length = 2 := by omega
      simp [monthKeyOf, h, hne]
  · intro h
    rw [monthKeyOf]
    split
    · rename_i p1 m y heq
      exact absurd (by simp [heq]) h
    · rfl

/-- Witness for C2 at the examples of the spec: a two-digit year is
prefixed with "20", a four-digit year is used as-is, and a date without
three dot-separated components yields no month key. -/
theorem monthKey_spec_witness :
    monthKeyOf "05.03.24" = some "2024-03" ∧
    monthKeyOf "05.03.2024" = some "2024-03" ∧
    monthKeyOf "bad-date" = none := by
  refine ⟨?_, ?_, ?_⟩
  · exact (((monthKey_spec "05.03.24").1 "05" "03" "24" (by decide)).1 (by decide)).trans
      (by decide)
  · exact (((monthKey_spec "05.03.2024").1 "05" "03" "2024" (by decide)).2 (by decide)).trans
      (by decide)
  · exact (monthKey_spec "bad-date").2 (by decide)

/-- Bridge between the boolean `List.contains` used by the JavaScript
`includes` call and propositional membership. -/
theorem contains_iff_mem_str (l : List String) (a : String) : l.contains a = true ↔ a ∈ l :=
  List.elem_iff

/-- C3: an empty month selection applies no filter at all; a non-empty
selection keeps exactly the records whose derived month key is a member of
the selection, so records without a derivable month key are excluded from
every non-empty-selection result but present when the selection is empty. -/
theorem filteredData_spec (sel : List String) (l : List ProductionRecord) :
    (sel = [] → filteredData sel l = l) ∧
    (sel ≠ [] → ∀ r, r ∈ filteredData sel l ↔
      r ∈ l ∧ ∃ k, monthKeyOf r.datum = some k ∧ k ∈ sel) := by
  constructor
  · intro h
    simp [filteredData, h]
  · intro h r
    have hlen : ¬ sel.length = 0 := by
      simpa [List.length_eq_zero] using h
    rw [filteredData, if_neg hlen, List.mem_filter]
    constructor
    · rintro ⟨hr, hp⟩
      refine ⟨hr, ?_⟩
      rw [recordInSelection] at hp
      cases hk : monthKeyOf r.datum with
      | none => rw [hk] at hp; cases hp
      | some k =>
        rw [hk] at hp
        exact ⟨k, rfl, (contains_iff_mem_str sel k).mp hp⟩
    · rintro ⟨hr, k, hk, hmem⟩
      refine ⟨hr, ?_⟩
      rw [recordInSelection, hk]
      exact (contains_iff_mem_str sel k).mpr hmem

/-- Witness for C3: with the empty selection a record with an unparsable
date is kept, and with the selection `["2024-03"]` a March 2024 record is
kept. -/
theorem filteredData_spec_witness :
    filteredData [] [mkRecord "A" "bad-date"] = [mkRecord "A" "bad-date"] ∧
    mkRecord "B" "05.03.24" ∈ filteredData ["2024-03"] [mkRecord "B" "05.03.24"] :=
  ⟨(filteredData_spec [] [mkRecord "A" "bad-date"]).1 rfl,
   ((filteredData_spec ["2024-03"] [mkRecord "B" "05.03.24"]).2 (by decide)
      (mkRecord "B" "05.03.24")).mpr
     ⟨by decide, "2024-03", by decide, by decide⟩⟩

/-- C10: with a non-empty selection the filter returns an order-preserving
sublist of its input in which every retained record keeps its multiplicity
and is returned unmodified. -/
theorem filteredData_sublist (sel : List String) (l : List ProductionRecord)
    (h : sel ≠ []) :
    (filteredData sel l).Sublist l ∧
    ∀ r, r ∈ filteredData sel l → (filteredData sel l).count r = l.count r := by
  have hlen : ¬ sel.length = 0 := by
    simpa [List.length_eq_zero] using h
  simp only [filteredData, if_neg hlen]
  refine ⟨List.filter_sublist l, ?_⟩
  intro r hr
  exact List.count_filter (List.of_mem_filter hr)

/-- Witness for C10 with the selection `["2024-03"]` and a singleton record
list whose record carries a March 2024 date. -/
theorem filteredData_sublist_witness :
    (filteredData ["2024-03"] [mkRecord "C" "05.03.24"]).Sublist [mkRecord "C" "05.03.24"] ∧
    (filteredData ["2024-03"] [mkRecord "C" "05.03.24"]).count (mkRecord "C" "05.03.24") =
      ([mkRecord "C" "05.03.24"]).count (mkRecord "C" "05.03.24") :=
  ⟨(filteredData_sublist ["2024-03"] [mkRecord "C" "05.03.24"] (by decide)).1,
   (filteredData_sublist ["2024-03"] [mkRecord "C" "05.03.24"] (by decide)).2
     (mkRecord "C" "05.03.24") (by decide)⟩

/-- A batch in which every document extracted successfully concatenates the
per-document record lists in order. -/
theorem extractBatch_map_ok (docs : List (List ProductionRecord)) :
    extractBatch (docs.map Except.ok) = Except.ok docs.flatten := by
  induction docs with
  | nil => rfl
  | cons d rest ih => simp [extractBatch, ih]

/-- C6: a fully successful upload appends the whole batch, concatenated in
document order, onto the end of the existing store in one step; the
existing records stay in place, unchanged, unreordered and without any
deduplication, and no error is reported. -/
theorem handleFileUpload_success (store : List ProductionRecord)
    (docs : List (List ProductionRecord)) :
    handleFileUpload store (docs.map Except.ok) = (store ++ docs.flatten, none) := by
  simp [handleFileUpload, extractBatch_map_ok]

/-- A batch containing a failed document makes the extraction loop abort
with an error. -/
theorem extractBatch_error_of_mem (results : List (Except String (List ProductionRecord)))
    (e : String) (h : Except.error e ∈ results) :
    ∃ e0, extractBatch results = Except.error e0 := by
  induction results with
  | nil => cases h
  | cons x rest ih =>
    cases x with
    | error e1 => exact ⟨e1, rfl⟩
    | ok recs =>
      have hx : Except.error e ∈ rest := by
        cases h with
        | tail _ ht => exact ht
      obtain ⟨e0, he0⟩ := ih hx
      exact ⟨e0, by simp [extractBatch, he0]⟩

/-- C9: when any extraction call of the batch throws, `handleFileUpload`
leaves the accumulated store exactly unchanged, so records already
extracted from earlier documents of the same batch are discarded rather
than appended. -/
theorem handleFileUpload_error_keeps_store (store : List ProductionRecord)
    (results : List (Except String (List ProductionRecord))) (e : String)
    (h : Except.error e ∈ results) :
    (handleFileUpload store results).1 = store := by
  obtain ⟨e0, he0⟩ := extractBatch_error_of_mem results e h
  simp [handleFileUpload, he0]

/-- Witness for C9: a batch of one successful and one failing document
leaves a one-record store unchanged. -/
theorem handleFileUpload_error_keeps_store_witness :
    (handleFileUpload [mkRecord "S" "01.01.24"]
      [Except.ok [mkRecord "N" "02.01.24"], Except.error "Fehler"]).1 =
      [mkRecord "S" "01.01.24"] :=
  handleFileUpload_error_keeps_store [mkRecord "S" "01.01.24"]
    [Except.ok [mkRecord "N" "02.01.24"], Except.error "Fehler"] "Fehler" (by simp)

/-- Counterexample to C1: a batch of three documents in which the second
fails while the first and third succeed ends with an empty store; the
record extracted from the successful first document is not retained. -/
theorem handleFileUpload_batch_counterexample :
    (handleFileUpload []
      [Except.ok [mkRecord "A" "01.03.24"], Except.error "Extraktion fehlgeschlagen",
       Except.ok [mkRecord "B" "02.03.24"]]).1 = [] ∧
    mkRecord "A" "01.03.24" ∉
      (handleFileUpload []
        [Except.ok [mkRecord "A" "01.03.24"], Except.error "Extraktion fehlgeschlagen",
         Except.ok [mkRecord "B" "02.03.24"]]).1 := by
  decide

/-- C1 as amended: when any document of the batch fails extraction, the
whole batch is discarded: the store is left exactly as it was, the records
of the successful documents included in nothing, and an error is
reported. -/
theorem handleFileUpload_batch_discard (store : List ProductionRecord)
    (results : List (Except String (List ProductionRecord))) (e : String)
    (h : Except.error e ∈ results) :
    (handleFileUpload store results).1 = store ∧
    (handleFileUpload store results).2 ≠ none := by
  obtain ⟨e0, he0⟩ := extractBatch_error_of_mem results e h
  simp [handleFileUpload, he0]

/-- Witness for the amended C1 at the three-document batch with a failing
middle document. -/
theorem handleFileUpload_batch_discard_witness :
    (handleFileUpload [mkRecord "P" "01.02.24"]
      [Except.ok [mkRecord "Q" "01.03.24"], Except.error "Fehler",
       Except.ok [mkRecord "R" "02.03.24"]]).1 = [mkRecord "P" "01.02.24"] ∧
    (handleFileUpload [mkRecord "P" "01.02.24"]
      [Except.ok [mkRecord "Q" "01.03.24"], Except.error "Fehler",
       Except.ok [mkRecord "R" "02.03.24"]]).2 ≠ none :=
  handleFileUpload_batch_discard [mkRecord "P" "01.02.24"]
    [Except.ok [mkRecord "Q" "01.03.24"], Except.error "Fehler",
     Except.ok [mkRecord "R" "02.03.24"]] "Fehler" (by simp)

/-- Every transition re-establishes the memo equation, whatever state it
starts from. -/
theorem stepApp_fresh (processOne : ProductionRecord → AppSettings → ProductionRecord)
    (st : AppState) (ev : AppEvent) :
    (stepApp processOne st ev).allProcessedData =
      (stepApp processOne st ev).uploadedRecords.map
        (fun rec => processOne rec (stepApp processOne st ev).settings) := by
  cases ev with
  | setSettings s => rfl
  | uploadBatch recs => rfl

/-- C5: after any sequence of settings changes and uploads, the processed
list equals the from-scratch application of the per-record processing with
the current settings to every raw record of the store; no processed record
ever reflects settings other than the current ones. -/
theorem allProcessedData_fresh (processOne : ProductionRecord → AppSettings → ProductionRecord)
    (events : List AppEvent) :
    (runApp processOne events).allProcessedData =
      (runApp processOne events).uploadedRecords.map
        (fun rec => processOne rec (runApp processOne events).settings) := by
  rw [runApp]
  have key : ∀ (evs : List AppEvent) (st : AppState),
      st.allProcessedData = st.uploadedRecords.map (fun rec => processOne rec st.settings) →
      (evs.foldl (stepApp processOne) st).allProcessedData =
        (evs.foldl (stepApp processOne) st).uploadedRecords.map
          (fun rec => processOne rec (evs.foldl (stepApp processOne) st).settings) := by
    intro evs
    induction evs with
    | nil => intro st h; exact h
    | cons ev rest ih =>
      intro st _
      exact ih (stepApp processOne st ev) (stepApp_fresh processOne st ev)
  exact key events initialAppState rfl

/-- Counterexample to C7: when the filtered list changes to the empty list,
the effect does not invoke the insight adapter; the displayed insight stays
the cached summary of the previous non-empty filtered set and differs from
what the adapter returns on the new, empty list. -/
theorem updateInsights_stale_counterexample :
    updateInsights demoInsight [] (demoInsight [mkRecord "A" "01.03.24"]) =
      demoInsight [mkRecord "A" "01.03.24"] ∧
    demoInsight [mkRecord "A" "01.03.24"] ≠ demoInsight [] := by
  decide

/-- C7 as amended: whenever the filtered list changes to a non-empty list,
the insight adapter is re-invoked on the new list and its result is
displayed; when the filtered list changes to the empty list the adapter is
not invoked and the previously displayed insight is kept. -/
theorem updateInsights_spec (g : List ProductionRecord → String)
    (filtered : List ProductionRecord) (cur : String) :
    (filtered ≠ [] → updateInsights g filtered cur = g filtered) ∧
    (filtered = [] → updateInsights g filtered cur = cur) := by
  constructor
  · intro h
    have hp : filtered.length > 0 := List.length_pos.mpr h
    simp [updateInsights, hp]
  · intro h
    simp [updateInsights, h]

/-- Witness for the amended C7: a change to a one-record filtered list
refreshes the insight, a change to the empty list keeps the old one. -/
theorem updateInsights_spec_witness :
    updateInsights demoInsight [mkRecord "W" "01.01.24"] "alt" =
      demoInsight [mkRecord "W" "01.01.24"] ∧
    updateInsights demoInsight [] "alt" = "alt" :=
  ⟨(updateInsights_spec demoInsight [mkRecord "W" "01.01.24"] "alt").1 (by decide),
   (updateInsights_spec demoInsight [] "alt").2 rfl⟩

/-- C8: a settings object with an unrecognised rounding mode, a
non-ascending bucket list or a negative tolerance is rejected at the
settings boundary: the state, and with it everything the
normaliser/classifier pipeline sees, is left untouched. -/
theorem invalidSettings_rejected (processOne : ProductionRecord → AppSettings → ProductionRecord)
    (st : AppState) (s : AppSettings)
    (h : (s.roundingMode ≠ RoundingMode.VARIANT_A ∧ s.roundingMode ≠ RoundingMode.VARIANT_B) ∨
      bucketsAscending s.tempBuckets = false ∨ s.tempTolerance < 0) :
    applySettingsChange processOne st s = st := by
  have hv : validSettings s = false := by
    rcases h with ⟨h1, h2⟩ | h | h
    · simp [validSettings, h1, h2]
    · simp [validSettings, h]
    · simp [validSettings, not_le.mpr h]
  simp [applySettingsChange, hv]

/-- Witness for C8: the negative-tolerance configuration is rejected and
the initial state survives unchanged. -/
theorem invalidSettings_rejected_witness :
    applySettingsChange (fun rec _ => rec) initialAppState invalidDemoSettings =
      initialAppState :=
  invalidSettings_rejected (fun rec _ => rec) initialAppState invalidDemoSettings
    (Or.inr (Or.inr (by decide)))

/-- Membership in the deduplicated key list: a key is kept exactly when it
occurs in the input and was not already seen. -/
theorem dedupKeepFirst_mem (l : List String) (seen : List String) (x : String) :
    x ∈ dedupKeepFirst seen l ↔ x ∈ l ∧ x ∉ seen := by
  induction l generalizing seen with
  | nil => simp [dedupKeepFirst]
  | cons a l ih =>
    rw [dedupKeepFirst]
    by_cases ha : seen.contains a = true
    · rw [if_pos ha, ih]
      have hmem : a ∈ seen := (contains_iff_mem_str seen a).mp ha
      constructor
      · rintro ⟨h1, h2⟩
        exact ⟨List.mem_cons_of_mem a h1, h2⟩
      · rintro ⟨h1, h2⟩
        rcases List.mem_cons.mp h1 with rfl | h1
        · exact absurd hmem h2
        · exact ⟨h1, h2⟩
    · rw [if_neg ha]
      have hmem : a ∉ seen := fun hc => ha ((contains_iff_mem_str seen a).mpr hc)
      constructor
      · intro h
        rcases List.mem_cons.mp h with rfl | h
        · exact ⟨List.mem_cons_self _ _, hmem⟩
        · rw [ih] at h
          obtain ⟨h1, h2⟩ := h
          exact ⟨List.mem_cons_of_mem a h1, fun hc => h2 (List.mem_cons_of_mem a hc)⟩
      · rintro ⟨h1, h2⟩
        rcases List.mem_cons.mp h1 with rfl | h1
        · exact List.mem_cons_self x _
        · by_cases hxa : x = a
          · subst hxa
            exact List.mem_cons_self x _
          · apply List.mem_cons_of_mem
            rw [ih]
            exact ⟨h1, fun hc => (List.mem_cons.mp hc).elim hxa h2⟩

/-- The deduplicated key list has no duplicates. -/
theorem dedupKeepFirst_nodup (l seen : List String) : (dedupKeepFirst seen l).Nodup := by
  induction l generalizing seen with
  | nil => simp [dedupKeepFirst]
  | cons a l ih =>
    rw [dedupKeepFirst]
    by_cases ha : seen.contains a = true
    · rw [if_pos ha]
      exact ih seen
    · rw [if_neg ha]
      refine List.nodup_cons.mpr ⟨?_, ih (a :: seen)⟩
      intro hc
      rw [dedupKeepFirst_mem] at hc
      exact hc.2 (List.mem_cons_self a seen)

/-- Transitivity of the sort comparison. -/
theorem strLe_trans (a b c : String) (h1 : strLe a b = true) (h2 : strLe b c = true) :
    strLe a c = true := by
  simp only [strLe, decide_eq_true_eq] at h1 h2 ⊢
  exact le_trans h1 h2

/-- Totality of the sort comparison. -/
theorem strLe_total (a b : String) : (strLe a b || strLe b a) = true := by
  simp only [strLe, Bool.or_eq_true, decide_eq_true_eq]
  exact le_total a b

/-- C4: the available-months list is always the distinct set of month keys
derived from the entire unfiltered processed dataset, without duplicates
and strictly descending in the lexicographic string order of the keys; its
membership is determined by the whole dataset, never by the filtered
subset. -/
theorem availableMonths_spec (l : List ProductionRecord) :
    (availableMonths l).Pairwise (fun a b => b < a) ∧
    (∀ k, k ∈ availableMonths l ↔ ∃ r, r ∈ l ∧ monthKeyOf r.datum = some k) := by
  have hperm := List.mergeSort_perm (dedupKeepFirst [] (monthKeys l)) strLe
  have hnd0 : (dedupKeepFirst [] (monthKeys l)).Nodup := dedupKeepFirst_nodup _ _
  have hndms : ((dedupKeepFirst [] (monthKeys l)).mergeSort strLe).Nodup :=
    hperm.symm.nodup hnd0
  have hsorted := List.sorted_mergeSort strLe_trans strLe_total (dedupKeepFirst [] (monthKeys l))
  have hlt : ((dedupKeepFirst [] (monthKeys l)).mergeSort strLe).Pairwise
      (fun a b : String => a < b) := by
    refine (hsorted.and hndms).imp ?_
    rintro a b ⟨h1, h2⟩
    have h1' : a ≤ b := by simpa [strLe] using h1
    exact lt_of_le_of_ne h1' h2
  constructor
  · rw [availableMonths, List.pairwise_reverse]
    exact hlt
  · intro k
    rw [availableMonths, List.mem_reverse, hperm.mem_iff, dedupKeepFirst_mem]
    simp [monthKeys, List.mem_filterMap]

/-- Witness for C4: the key of a March 2024 record is a member of the
available months of a concrete dataset. -/
theorem availableMonths_spec_witness :
    "2024-03" ∈ availableMonths [mkRecord "A" "05.03.24", mkRecord "B" "bad-date"] :=
  ((availableMonths_spec [mkRecord "A" "05.03.24", mkRecord "B" "bad-date"]).2 "2024-03").mpr
    ⟨mkRecord "A" "05.03.24", by decide, by decide⟩
